import Mathlib

/-!
Shallow embedding of the CSV pre-processor in `server.py`.

A pandas cell is either a Python string or some non-string value (NaN from an
empty CSV cell, a parsed number, ...).  A data frame is an ordered list of
named columns, each an ordered list of cells.  Python string operations used
by the validators (`strip`, `upper`, `isdigit`, `isalnum`, `replace`,
`split`, `in`) are modelled on the character list of the string; character
classes are modelled over ASCII, which is the data the program handles.
Exceptions (`ValueError` from column lookup, `IndexError` from `iloc[0]` on
an empty frame, `AttributeError` from `.strip()` on a non-string) are
modelled with `Option`/`Except`.
-/

namespace DxPre

/-- A pandas cell: a Python string, or a non-string value (NaN, a number, ...);
the tag keeps distinct non-string values distinct. -/
inductive Cell where
  | str (s : String)
  | nonstr (tag : Nat)
  deriving DecidableEq, Repr

/-- Model of Python whitespace as stripped by `str.strip()`. -/
def isPySpace (c : Char) : Bool :=
  c.isWhitespace

/-- Remove leading and trailing whitespace characters from a character list. -/
def stripList (cs : List Char) : List Char :=
  ((cs.dropWhile isPySpace).reverse.dropWhile isPySpace).reverse

/-- Model of Python `str.strip()`. -/
def pyStrip (s : String) : String :=
  String.mk (stripList s.data)

/-- Model of Python `str.upper()` (per-character ASCII upper-casing). -/
def pyUpper (s : String) : String :=
  String.mk (s.data.map Char.toUpper)

/-- Model of Python `str.isdigit()`: non-empty and every character a digit. -/
def pyIsDigit (s : String) : Bool :=
  !s.data.isEmpty && s.data.all Char.isDigit

/-- Model of Python `str.isalnum()`: non-empty and every character alphanumeric. -/
def pyIsAlnum (s : String) : Bool :=
  !s.data.isEmpty && s.data.all Char.isAlphanum

/-- Model of Python `str.replace(' ', '')`: drop every space character. -/
def pyRemoveSpaces (s : String) : String :=
  String.mk (s.data.filter (fun c => c ≠ ' '))

/-- Model of Python `str.split(sep)` for a one-character separator: always
returns a non-empty list; the empty string splits to `[""]`. -/
def splitOnChar (sep : Char) : List Char → List (List Char)
  | [] => [[]]
  | c :: rest =>
    let r := splitOnChar sep rest
    if c = sep then
      [] :: r
    else
      match r with
      | [] => [[c]]
      | h :: t => (c :: h) :: t

/-- Model of Python `c in s` for a character and a string. -/
def pyContains (s : String) (c : Char) : Bool :=
  s.data.contains c

/-- List of valid states/territories (`VALID_STATES` in `server.py`). -/
def VALID_STATES : List String :=
  ["NSW", "VIC", "QLD", "SA", "WA", "ACT", "TAS", "NT"]

/-- `validate_state` from `server.py`: a string whose stripped upper-cased form
is a valid state code is normalised to that form; everything else becomes
the empty string. -/
def validate_state : Cell → String
  | .str s =>
    if VALID_STATES.contains (pyUpper (pyStrip s)) then pyUpper (pyStrip s)
    else ""
  | .nonstr _ => ""

/-- `validate_postcode` from `server.py`: a string whose stripped form is all
digits and exactly 4 characters long is kept stripped; everything else
becomes the empty string. -/
def validate_postcode : Cell → String
  | .str s =>
    if pyIsDigit (pyStrip s) = true ∧ (pyStrip s).length = 4 then pyStrip s
    else ""
  | .nonstr _ => ""

/-- `validate_phone` from `server.py`: a string whose stripped form is at most
15 characters and, with spaces removed, alphanumeric, is kept stripped;
everything else becomes the empty string. -/
def validate_phone : Cell → String
  | .str s =>
    if (pyStrip s).length ≤ 15 ∧ pyIsAlnum (pyRemoveSpaces (pyStrip s)) = true then
      pyStrip s
    else ""
  | .nonstr _ => ""

/-- `validate_email` from `server.py`: split the string on commas, strip each
piece, and keep the first piece when it is at most 130 characters, contains
an at sign and a dot and no space; everything else becomes the empty string. -/
def validate_email : Cell → String
  | .str s =>
    let emails := (splitOnChar ',' s.data).map stripList
    match emails with
    | [] => ""
    | first :: _ =>
      if first.length ≤ 130 ∧ first.contains '@' = true ∧ first.contains '.' = true ∧
          first.contains ' ' = false then
        String.mk first
      else ""
  | .nonstr _ => ""

/-- A named column of a data frame. -/
structure Column where
  name : String
  cells : List Cell
  deriving DecidableEq, Repr

/-- A pandas data frame: an ordered list of named columns. -/
abbrev DataFrame := List Column

/-- The case-insensitive key a column name is compared under: stripped then
upper-cased, as in `get_column_case_insensitive`. -/
def normName (s : String) : String :=
  pyUpper (pyStrip s)

/-- `get_column_case_insensitive` from `server.py`: the first column whose
stripped upper-cased name equals the upper-cased target, as actual name and
cells; `none` models the `ValueError` raised when no column matches. -/
def get_column_case_insensitive (df : DataFrame) (column_name : String) :
    Option (String × List Cell) :=
  match df.find? (fun c => normName c.name == pyUpper column_name) with
  | some c => some (c.name, c.cells)
  | none => none

/-- Pandas column assignment `df[name] = cells`: every column whose exact name
is `name` gets the new cells (the name is always one obtained from a lookup,
so it is present). -/
def setColumn (df : DataFrame) (name : String) (cells : List Cell) : DataFrame :=
  df.map (fun c => if c.name = name then { c with cells := cells } else c)

/-- One loop iteration of `process_rockend_property_iq` / `process_maxsoft`:
look the plan field up case-insensitively; when found, replace the column by
mapping the validator over its cells; the `ValueError` of a missing column is
caught and the field skipped. -/
def applyValidator (df : DataFrame) (col_name : String) (f : Cell → String) :
    DataFrame :=
  match get_column_case_insensitive df col_name with
  | some (actual, cells) => setColumn df actual (cells.map (fun c => Cell.str (f c)))
  | none => df

/-- `COLUMNS_TO_VALIDATE_MAXSOFT` from `server.py` (insertion order of the
Python dict). -/
def COLUMNS_TO_VALIDATE_MAXSOFT : List (String × (Cell → String)) :=
  [("State", validate_state), ("PCode", validate_postcode), ("Phone", validate_phone),
   ("Mobile", validate_phone), ("Fax", validate_phone), ("Email", validate_email)]

/-- `COLUMNS_TO_VALIDATE_RP` from `server.py`. -/
def COLUMNS_TO_VALIDATE_RP : List (String × (Cell → String)) :=
  [("State", validate_state), ("PCode", validate_postcode)]

/-- The loop shared by the two processing functions: fold the plan over the
data frame. -/
def process_plan (plan : List (String × (Cell → String))) (df : DataFrame) :
    DataFrame :=
  plan.foldl (fun d p => applyValidator d p.1 p.2) df

/-- `process_rockend_property_iq` from `server.py`. -/
def process_rockend_property_iq (df : DataFrame) : DataFrame :=
  process_plan COLUMNS_TO_VALIDATE_RP df

/-- `process_maxsoft` from `server.py`. -/
def process_maxsoft (df : DataFrame) : DataFrame :=
  process_plan COLUMNS_TO_VALIDATE_MAXSOFT df

/-- The stem of `os.path.splitext`: drop the extension starting at the last
dot, where leading dots of the name never start an extension. -/
def splitextStem (name : String) : String :=
  let cs := name.data
  let lead := (cs.takeWhile (fun c => c = '.')).length
  let rest := cs.drop lead
  if rest.contains '.' then
    let k := (rest.reverse.takeWhile (fun c => c ≠ '.')).length
    String.mk (cs.take (cs.length - k - 1))
  else
    name

/-- The path the processed CSV is written to:
`os.path.join(UPLOAD_FOLDER, splitext(original)[0] + "_processed.csv")`. -/
def processedPath (original_filename : String) : String :=
  "uploads/" ++ splitextStem original_filename ++ "_processed.csv"

/-- What `preprocess_file` hands back after a successful run: either the
in-memory data frame itself (no file written), or the path of a written CSV
together with the frame that was serialised to it. -/
inductive PreprocessResult where
  | passthrough (df : DataFrame)
  | written (path : String) (df : DataFrame)
  deriving DecidableEq, Repr

/-- The data frame carried by a `PreprocessResult`. -/
def resultDf : PreprocessResult → DataFrame
  | .passthrough df => df
  | .written _ df => df

/-- The core of `preprocess_file` from `server.py`, on an already-parsed data
frame.  Errors model the uncaught exceptions: the `ValueError` of a missing
`SOFTVEND` column, the `IndexError` of `iloc[0]` on a frame with no rows, and
the `AttributeError` of `.strip()` on a non-string marker cell. -/
def preprocess_df (df : DataFrame) (original_filename : String) :
    Except String PreprocessResult :=
  match get_column_case_insensitive df "SOFTVEND" with
  | none => .error "ValueError: Column SOFTVEND not found in the uploaded file."
  | some (_, cells) =>
    match cells.head? with
    | none => .error "IndexError: single positional indexer is out-of-bounds"
    | some (.nonstr _) => .error "AttributeError: float object has no attribute strip"
    | some (.str v) =>
      let softvend_upper := pyUpper (pyStrip v)
      if softvend_upper = "ROCKEND" ∨ softvend_upper = "PROPERTYIQ" then
        .ok (.written (processedPath original_filename) (process_rockend_property_iq df))
      else if softvend_upper = "MAXSOFT" then
        .ok (.written (processedPath original_filename) (process_maxsoft df))
      else if softvend_upper = "STRATASPHERE" ∨ softvend_upper = "STRATA PLUS" then
        .ok (.passthrough df)
      else
        .ok (.written (processedPath original_filename) df)

/-- A result of `preprocess_df` is an error (an uncaught Python exception). -/
def isError : Except String PreprocessResult → Bool
  | .error _ => true
  | .ok _ => false

/-! ## Helper lemmas on the Python string model -/

theorem dropWhile_head?_false (p : Char → Bool) :
    ∀ (l : List Char) (a : Char), (l.dropWhile p).head? = some a → p a = false := by
  intro l
  induction l with
  | nil => intro a h; simp [List.dropWhile] at h
  | cons c rest ih =>
    intro a h
    by_cases hc : p c
    · rw [List.dropWhile_cons_of_pos hc] at h
      exact ih a h
    · rw [List.dropWhile_cons_of_neg hc] at h
      simp at h
      rw [← h]
      exact Bool.eq_false_iff.mpr hc

theorem dropWhile_eq_self_of_head (p : Char → Bool) (l : List Char)
    (h : ∀ a, l.head? = some a → p a = false) : l.dropWhile p = l := by
  cases l with
  | nil => rfl
  | cons c rest =>
    have := h c rfl
    rw [List.dropWhile_cons_of_neg (by simp [this])]

theorem getLast?_dropWhile (p : Char → Bool) :
    ∀ (l : List Char), l.dropWhile p ≠ [] → (l.dropWhile p).getLast? = l.getLast? := by
  intro l
  induction l with
  | nil => intro h; simp [List.dropWhile] at h
  | cons c rest ih =>
    intro h
    by_cases hc : p c
    · rw [List.dropWhile_cons_of_pos hc] at h ⊢
      rcases rest with _ | ⟨b, t⟩
      · simp [List.dropWhile] at h
      · rw [List.getLast?_cons_cons, ih h]
    · rw [List.dropWhile_cons_of_neg hc]

theorem head?_stripList (l : List Char) (a : Char)
    (h : (stripList l).head? = some a) : isPySpace a = false := by
  unfold stripList at h
  rcases hB : ((l.dropWhile isPySpace).reverse.dropWhile isPySpace) with _ | ⟨b, t⟩
  · rw [hB] at h; simp at h
  · rw [hB] at h
    have hne : (l.dropWhile isPySpace).reverse.dropWhile isPySpace ≠ [] := by
      rw [hB]; simp
    have hlast : ((l.dropWhile isPySpace).reverse.dropWhile isPySpace).getLast? =
        (l.dropWhile isPySpace).reverse.getLast? := getLast?_dropWhile _ _ hne
    rw [List.head?_reverse] at h
    rw [hB] at hlast
    rw [hlast] at h
    rw [List.getLast?_reverse] at h
    exact dropWhile_head?_false isPySpace l a h

theorem getLast?_stripList (l : List Char) (a : Char)
    (h : (stripList l).getLast? = some a) : isPySpace a = false := by
  unfold stripList at h
  rw [List.getLast?_reverse] at h
  exact dropWhile_head?_false isPySpace _ a h

theorem stripList_eq_self (l : List Char)
    (hh : ∀ a, l.head? = some a → isPySpace a = false)
    (hl : ∀ a, l.getLast? = some a → isPySpace a = false) : stripList l = l := by
  unfold stripList
  rw [dropWhile_eq_self_of_head isPySpace l hh]
  rw [dropWhile_eq_self_of_head isPySpace l.reverse
    (by intro a ha; rw [List.head?_reverse] at ha; exact hl a ha)]
  exact List.reverse_reverse l

theorem stripList_idem (l : List Char) : stripList (stripList l) = stripList l :=
  stripList_eq_self _ (head?_stripList l) (getLast?_stripList l)

theorem pyStrip_pyStrip (s : String) : pyStrip (pyStrip s) = pyStrip s := by
  unfold pyStrip
  exact congrArg String.mk (stripList_idem s.data)

theorem mem_stripList (l : List Char) (a : Char) (h : a ∈ stripList l) : a ∈ l := by
  unfold stripList at h
  rw [List.mem_reverse] at h
  have h2 := List.Sublist.subset (List.dropWhile_sublist isPySpace) h
  rw [List.mem_reverse] at h2
  exact List.Sublist.subset (List.dropWhile_sublist isPySpace) h2

theorem stripList_of_not_space (l : List Char)
    (h : ∀ a ∈ l, isPySpace a = false) : stripList l = l := by
  apply stripList_eq_self
  · intro a ha
    exact h a (List.mem_of_mem_head? ha)
  · intro a ha
    exact h a (List.mem_of_getLast?_eq_some ha)

theorem splitOnChar_head (sep : Char) :
    ∀ (cs : List Char), ∃ t, splitOnChar sep cs = (cs.takeWhile (fun c => c ≠ sep)) :: t := by
  intro cs
  induction cs with
  | nil => exact ⟨[], rfl⟩
  | cons c rest ih =>
    by_cases hc : c = sep
    · subst hc
      refine ⟨splitOnChar c rest, ?_⟩
      simp [splitOnChar, List.takeWhile_cons]
    · obtain ⟨t, ht⟩ := ih
      refine ⟨t, ?_⟩
      simp only [splitOnChar, if_neg hc, ht, List.takeWhile_cons]
      simp [hc]

theorem splitOnChar_head_no_sep (sep : Char) (cs : List Char) (h0 : List Char)
    (t : List (List Char)) (h : splitOnChar sep cs = h0 :: t) : sep ∉ h0 := by
  obtain ⟨t2, ht⟩ := splitOnChar_head sep cs
  rw [ht] at h
  have : h0 = cs.takeWhile (fun c => c ≠ sep) := (List.cons.injEq _ _ _ _ ▸ h).1.symm
  rw [this]
  intro hmem
  have := List.mem_takeWhile_imp hmem
  simp at this

theorem splitOnChar_of_no_sep (sep : Char) :
    ∀ (cs : List Char), sep ∉ cs → splitOnChar sep cs = [cs] := by
  intro cs
  induction cs with
  | nil => intro _; rfl
  | cons c rest ih =>
    intro h
    have hc : ¬ c = sep := fun he => h (he ▸ List.mem_cons_self c rest)
    have hr : sep ∉ rest := fun hm => h (List.mem_cons_of_mem c hm)
    simp only [splitOnChar, if_neg hc, ih hr]

/-! ## Validator facts -/

theorem pyStrip_data (s : String) : (pyStrip s).data = stripList s.data := rfl

theorem mk_data (l : List Char) : (String.mk l).data = l := rfl

theorem validate_state_idem (c : Cell) :
    validate_state (.str (validate_state c)) = validate_state c := by
  cases c with
  | nonstr t =>
    show validate_state (.str "") = ""
    decide
  | str s =>
    simp only [validate_state]
    by_cases h : VALID_STATES.contains (pyUpper (pyStrip s)) = true
    · rw [if_pos h]
      have hmem : pyUpper (pyStrip s) ∈ VALID_STATES := by
        simpa using h
      simp only [VALID_STATES, List.mem_cons, List.not_mem_nil, or_false] at hmem
      rcases hmem with h1 | h1 | h1 | h1 | h1 | h1 | h1 | h1 <;> rw [h1] <;> decide
    · rw [if_neg h]
      decide

theorem validate_postcode_idem (c : Cell) :
    validate_postcode (.str (validate_postcode c)) = validate_postcode c := by
  cases c with
  | nonstr t =>
    show validate_postcode (.str "") = ""
    decide
  | str s =>
    simp only [validate_postcode]
    by_cases h : pyIsDigit (pyStrip s) = true ∧ (pyStrip s).length = 4
    · rw [if_pos h]
      rw [if_pos (by rw [pyStrip_pyStrip]; exact h)]
      exact pyStrip_pyStrip s
    · rw [if_neg h]
      decide

theorem validate_phone_idem (c : Cell) :
    validate_phone (.str (validate_phone c)) = validate_phone c := by
  cases c with
  | nonstr t =>
    show validate_phone (.str "") = ""
    decide
  | str s =>
    simp only [validate_phone]
    by_cases h : (pyStrip s).length ≤ 15 ∧ pyIsAlnum (pyRemoveSpaces (pyStrip s)) = true
    · rw [if_pos h]
      rw [if_pos (by rw [pyStrip_pyStrip]; exact h)]
      exact pyStrip_pyStrip s
    · rw [if_neg h]
      decide

theorem validate_email_str (s : String) :
    validate_email (.str s) =
      if (stripList (s.data.takeWhile (fun c => c ≠ ','))).length ≤ 130 ∧
          (stripList (s.data.takeWhile (fun c => c ≠ ','))).contains '@' = true ∧
          (stripList (s.data.takeWhile (fun c => c ≠ ','))).contains '.' = true ∧
          (stripList (s.data.takeWhile (fun c => c ≠ ','))).contains ' ' = false then
        String.mk (stripList (s.data.takeWhile (fun c => c ≠ ',')))
      else "" := by
  obtain ⟨t, ht⟩ := splitOnChar_head ',' s.data
  simp only [validate_email, ht, List.map_cons]

theorem validate_email_idem (c : Cell) :
    validate_email (.str (validate_email c)) = validate_email c := by
  cases c with
  | nonstr t =>
    show validate_email (.str "") = ""
    decide
  | str s =>
    rw [validate_email_str s]
    by_cases h : (stripList (s.data.takeWhile (fun c => c ≠ ','))).length ≤ 130 ∧
        (stripList (s.data.takeWhile (fun c => c ≠ ','))).contains '@' = true ∧
        (stripList (s.data.takeWhile (fun c => c ≠ ','))).contains '.' = true ∧
        (stripList (s.data.takeWhile (fun c => c ≠ ','))).contains ' ' = false
    · rw [if_pos h]
      have hnosep : ',' ∉ stripList (s.data.takeWhile (fun c => c ≠ ',')) := by
        intro hm
        have h2 := mem_stripList _ _ hm
        have := List.mem_takeWhile_imp h2
        simp at this
      simp only [validate_email, mk_data, splitOnChar_of_no_sep ',' _ hnosep,
        List.map_cons, List.map_nil, stripList_idem]
      rw [if_pos h]
    · rw [if_neg h]
      decide

/-- C2: for every input value, the postcode validator returns the trimmed
input when the trimmed input is exactly 4 decimal digit characters and the
empty string otherwise, and every non-string input yields the empty string. -/
theorem C2_validate_postcode_spec :
    (∀ s : String, validate_postcode (.str s) =
      if (pyStrip s).length = 4 ∧ ∀ ch ∈ (pyStrip s).data, ch.isDigit then pyStrip s
      else "") ∧
    (∀ t : Nat, validate_postcode (.nonstr t) = "") := by
  constructor
  · intro s
    simp only [validate_postcode]
    congr 1
    simp only [eq_iff_iff]
    constructor
    · rintro ⟨hd, hl⟩
      refine ⟨hl, ?_⟩
      intro ch hch
      simp only [pyIsDigit, Bool.and_eq_true, List.all_eq_true] at hd
      exact hd.2 ch hch
    · rintro ⟨hl, hd⟩
      refine ⟨?_, hl⟩
      simp only [pyIsDigit, Bool.and_eq_true, List.all_eq_true]
      refine ⟨?_, fun ch hch => hd ch hch⟩
      have : (pyStrip s).data.length = 4 := hl
      simp [List.isEmpty_iff, ← List.length_eq_zero, this]
  · intro t
    rfl

/-- C3 counterexample: the string made of the letters a..i separated by single
spaces is at most 15 characters after removing spaces and trimming (9), and its
space-stripped form is alphanumeric, yet `validate_phone` rejects it (its
trimmed length 17 exceeds 15), so it does not return the trimmed input as the
claim states. -/
theorem C3_counterexample :
    (pyRemoveSpaces (pyStrip "a b c d e f g h i")).length ≤ 15 ∧
      pyIsAlnum (pyRemoveSpaces (pyStrip "a b c d e f g h i")) = true ∧
      validate_phone (.str "a b c d e f g h i") = "" ∧
      validate_phone (.str "a b c d e f g h i") ≠ pyStrip "a b c d e f g h i" := by
  decide

theorem pyIsAlnum_iff (s : String) :
    pyIsAlnum s = true ↔ (s.data ≠ [] ∧ ∀ ch ∈ s.data, ch.isAlphanum = true) := by
  obtain ⟨l⟩ := s
  cases l <;> simp [pyIsAlnum]

/-- C3 (amended): for every input string whose trimmed form is at most 15
characters, the phone validator returns the trimmed input when the
space-stripped trimmed form is non-empty and alphanumeric, and the empty
string otherwise; every non-string input yields the empty string. -/
theorem C3_validate_phone_spec :
    (∀ s : String, (pyStrip s).length ≤ 15 →
      validate_phone (.str s) =
        if (pyRemoveSpaces (pyStrip s)).data ≠ [] ∧
            ∀ ch ∈ (pyRemoveSpaces (pyStrip s)).data, ch.isAlphanum then pyStrip s
        else "") ∧
    (∀ t : Nat, validate_phone (.nonstr t) = "") := by
  constructor
  · intro s hlen
    simp only [validate_phone]
    congr 1
    simp only [eq_iff_iff]
    constructor
    · rintro ⟨-, ha⟩
      have := (pyIsAlnum_iff _).mp ha
      exact ⟨this.1, fun ch hch => this.2 ch hch⟩
    · rintro ⟨hne, ha⟩
      exact ⟨hlen, (pyIsAlnum_iff _).mpr ⟨hne, fun ch hch => ha ch hch⟩⟩
  · intro t
    rfl

/-- C3 witness: the amended statement applied to a concrete accepted phone
string and its conclusion evaluated. -/
theorem C3_witness : validate_phone (.str " 04 1234 ") = "04 1234" := by
  have h := C3_validate_phone_spec.1 " 04 1234 " (by decide)
  rw [h]
  decide

/-- The first comma-separated, trimmed segment of a string, as the spec
describes it: the characters before the first comma, stripped. -/
def firstCommaSegment (s : String) : String :=
  String.mk (stripList (s.data.takeWhile (fun c => c ≠ ',')))

/-- C4: for every input string, the email validator returns the first
comma-separated trimmed segment when that segment is at most 130 characters,
contains an at sign, contains a dot, and contains no space, and the empty
string otherwise; every non-string input yields the empty string. -/
theorem C4_validate_email_spec :
    (∀ s : String, validate_email (.str s) =
      if (firstCommaSegment s).length ≤ 130 ∧
          pyContains (firstCommaSegment s) '@' = true ∧
          pyContains (firstCommaSegment s) '.' = true ∧
          pyContains (firstCommaSegment s) ' ' = false then firstCommaSegment s
      else "") ∧
    (∀ t : Nat, validate_email (.nonstr t) = "") := by
  constructor
  · intro s
    rw [validate_email_str s]
    rfl
  · intro t
    rfl

/-- C5: each field validator is total on arbitrary cells: on every non-string
value it returns the empty string, and whenever it returns a non-empty result
the result is an accepted, normalised value (a valid state code; a stripped
4-digit postcode; a stripped phone string of length at most 15 that is
alphanumeric once spaces are removed; a comma-free email segment of length at
most 130 containing an at sign and a dot and no space).  The error branch of
each validator therefore yields exactly the empty string. -/
theorem C5_validators_total (c : Cell) :
    (validate_state c = "" ∨ validate_state c ∈ VALID_STATES) ∧
    (validate_postcode c = "" ∨
      (pyIsDigit (validate_postcode c) = true ∧ (validate_postcode c).length = 4)) ∧
    (validate_phone c = "" ∨
      ((validate_phone c).length ≤ 15 ∧
        pyIsAlnum (pyRemoveSpaces (validate_phone c)) = true)) ∧
    (validate_email c = "" ∨
      ((validate_email c).length ≤ 130 ∧
        pyContains (validate_email c) '@' = true ∧
        pyContains (validate_email c) '.' = true ∧
        pyContains (validate_email c) ' ' = false)) ∧
    (∀ t : Nat, c = .nonstr t →
      validate_state c = "" ∧ validate_postcode c = "" ∧
        validate_phone c = "" ∧ validate_email c = "") := by
  refine ⟨?_, ?_, ?_, ?_, ?_⟩
  · cases c with
    | nonstr t => exact Or.inl rfl
    | str s =>
      simp only [validate_state]
      by_cases h : VALID_STATES.contains (pyUpper (pyStrip s)) = true
      · rw [if_pos h]
        exact Or.inr (by simpa using h)
      · rw [if_neg h]
        exact Or.inl rfl
  · cases c with
    | nonstr t => exact Or.inl rfl
    | str s =>
      simp only [validate_postcode]
      by_cases h : pyIsDigit (pyStrip s) = true ∧ (pyStrip s).length = 4
      · rw [if_pos h]
        exact Or.inr h
      · rw [if_neg h]
        exact Or.inl rfl
  · cases c with
    | nonstr t => exact Or.inl rfl
    | str s =>
      simp only [validate_phone]
      by_cases h : (pyStrip s).length ≤ 15 ∧ pyIsAlnum (pyRemoveSpaces (pyStrip s)) = true
      · rw [if_pos h]
        exact Or.inr h
      · rw [if_neg h]
        exact Or.inl rfl
  · cases c with
    | nonstr t => exact Or.inl rfl
    | str s =>
      rw [validate_email_str s]
      by_cases h : (stripList (s.data.takeWhile (fun c => c ≠ ','))).length ≤ 130 ∧
          (stripList (s.data.takeWhile (fun c => c ≠ ','))).contains '@' = true ∧
          (stripList (s.data.takeWhile (fun c => c ≠ ','))).contains '.' = true ∧
          (stripList (s.data.takeWhile (fun c => c ≠ ','))).contains ' ' = false
      · rw [if_pos h]
        exact Or.inr h
      · rw [if_neg h]
        exact Or.inl rfl
  · rintro t rfl
    exact ⟨rfl, rfl, rfl, rfl⟩

/-- C5 witness: the totality statement applied to a concrete non-string cell
(the NaN a blank CSV cell is read as). -/
theorem C5_witness :
    validate_state (.nonstr 0) = "" ∧ validate_postcode (.nonstr 0) = "" ∧
      validate_phone (.nonstr 0) = "" ∧ validate_email (.nonstr 0) = "" :=
  (C5_validators_total (.nonstr 0)).2.2.2.2 0 rfl

/-! ## Data-frame lemmas -/

theorem map_eq_self_of {α : Type} (l : List α) (f : α → α) (h : ∀ a ∈ l, f a = a) :
    l.map f = l := by
  rw [List.map_congr_left h]
  exact List.map_id' l

theorem of_map_eq_self {α : Type} (l : List α) (f : α → α) (h : l.map f = l) :
    ∀ a ∈ l, f a = a := by
  induction l with
  | nil => intro a ha; exact absurd ha (List.not_mem_nil a)
  | cons x t ih =>
    simp only [List.map_cons, List.cons.injEq] at h
    intro a ha
    rcases List.mem_cons.mp ha with rfl | ha2
    · exact h.1
    · exact ih h.2 a ha2

theorem setColumn_eq_self (df : DataFrame) (a : String) (cs : List Cell)
    (h : ∀ c ∈ df, c.name = a → c.cells = cs) : setColumn df a cs = df := by
  apply map_eq_self_of
  intro c hc
  by_cases hn : c.name = a
  · rw [if_pos hn]
    obtain ⟨nm, cl⟩ := c
    simp only [Column.mk.injEq, true_and]
    exact (h _ hc hn).symm
  · exact if_neg hn

theorem cells_of_setColumn_eq_self (df : DataFrame) (a : String) (cs : List Cell)
    (h : setColumn df a cs = df) : ∀ c ∈ df, c.name = a → c.cells = cs := by
  intro c hc hn
  have := of_map_eq_self df _ h c hc
  rw [if_pos hn] at this
  obtain ⟨nm, cl⟩ := c
  simp only [Column.mk.injEq] at this
  exact this.2.symm

theorem setColumn_setColumn (df : DataFrame) (a : String) (cs : List Cell) :
    setColumn (setColumn df a cs) a cs = setColumn df a cs := by
  unfold setColumn
  rw [List.map_map]
  apply List.map_congr_left
  intro c _
  by_cases hn : c.name = a
  · simp [hn]
  · simp [hn]

theorem setColumn_names (df : DataFrame) (a : String) (cs : List Cell) :
    (setColumn df a cs).map (fun c => normName c.name) = df.map (fun c => normName c.name) := by
  unfold setColumn
  rw [List.map_map]
  apply List.map_congr_left
  intro c _
  by_cases hn : c.name = a
  · simp [hn]
  · simp [hn]

theorem applyValidator_of_find?_none (df : DataFrame) (n : String) (f : Cell → String)
    (hf : List.find? (fun c => normName c.name == pyUpper n) df = none) :
    applyValidator df n f = df := by
  unfold applyValidator get_column_case_insensitive
  rw [hf]

theorem applyValidator_of_find?_some (df : DataFrame) (n : String) (f : Cell → String)
    (col : Column)
    (hf : List.find? (fun c => normName c.name == pyUpper n) df = some col) :
    applyValidator df n f = setColumn df col.name (col.cells.map (fun c => Cell.str (f c))) := by
  unfold applyValidator get_column_case_insensitive
  rw [hf]

theorem find?_setColumn (df : DataFrame) (a : String) (cs : List Cell) (n : String) :
    List.find? (fun c => normName c.name == pyUpper n) (setColumn df a cs) =
      Option.map (fun c => if c.name = a then { c with cells := cs } else c)
        (List.find? (fun c => normName c.name == pyUpper n) df) := by
  unfold setColumn
  rw [List.find?_map]
  congr 1
  congr 1
  funext c
  by_cases hn : c.name = a
  · simp [Function.comp, hn]
  · simp [Function.comp, hn]

theorem applyValidator_names (df : DataFrame) (n : String) (f : Cell → String) :
    (applyValidator df n f).map (fun c => normName c.name) =
      df.map (fun c => normName c.name) := by
  cases hf : List.find? (fun c => normName c.name == pyUpper n) df with
  | none => rw [applyValidator_of_find?_none df n f hf]
  | some col =>
    rw [applyValidator_of_find?_some df n f col hf]
    exact setColumn_names df col.name _

theorem applyValidator_applyValidator (df : DataFrame) (n : String) (f : Cell → String)
    (hidem : ∀ c, f (Cell.str (f c)) = f c) :
    applyValidator (applyValidator df n f) n f = applyValidator df n f := by
  cases hf : List.find? (fun c => normName c.name == pyUpper n) df with
  | none =>
    rw [applyValidator_of_find?_none df n f hf, applyValidator_of_find?_none df n f hf]
  | some col =>
    rw [applyValidator_of_find?_some df n f col hf]
    have hf2 : List.find? (fun c => normName c.name == pyUpper n)
        (setColumn df col.name (col.cells.map (fun c => Cell.str (f c)))) =
        some { col with cells := col.cells.map (fun c => Cell.str (f c)) } := by
      rw [find?_setColumn, hf]
      simp
    rw [applyValidator_of_find?_some _ n f _ hf2]
    have hcells : (col.cells.map (fun c => Cell.str (f c))).map (fun c => Cell.str (f c)) =
        col.cells.map (fun c => Cell.str (f c)) := by
      rw [List.map_map]
      apply List.map_congr_left
      intro c _
      simp only [Function.comp_apply, hidem c]
    simp only [hcells]
    exact setColumn_setColumn df col.name _

theorem applyValidator_stable_of_ne (df : DataFrame) (n n2 : String)
    (f f2 : Cell → String) (hne : pyUpper n ≠ pyUpper n2)
    (hstable : applyValidator df n f = df) :
    applyValidator (applyValidator df n2 f2) n f = applyValidator df n2 f2 := by
  cases hf2 : List.find? (fun c => normName c.name == pyUpper n2) df with
  | none =>
    rw [applyValidator_of_find?_none df n2 f2 hf2]
    exact hstable
  | some col2 =>
    rw [applyValidator_of_find?_some df n2 f2 col2 hf2]
    have hcol2 : normName col2.name = pyUpper n2 := by
      have := List.find?_some hf2
      simpa using this
    cases hf : List.find? (fun c => normName c.name == pyUpper n) df with
    | none =>
      apply applyValidator_of_find?_none
      rw [find?_setColumn, hf]
      rfl
    | some col =>
      have hcol : normName col.name = pyUpper n := by
        have := List.find?_some hf
        simpa using this
      have hname : col.name ≠ col2.name := by
        intro he
        exact hne (by rw [← hcol, ← hcol2, he])
      have hf3 : List.find? (fun c => normName c.name == pyUpper n)
          (setColumn df col2.name (col2.cells.map (fun c => Cell.str (f2 c)))) = some col := by
        rw [find?_setColumn, hf]
        simp [hname]
      rw [applyValidator_of_find?_some _ n f _ hf3]
      have hpt : ∀ c ∈ df, c.name = col.name →
          c.cells = col.cells.map (fun c => Cell.str (f c)) := by
        apply cells_of_setColumn_eq_self
        rw [← applyValidator_of_find?_some df n f col hf]
        exact hstable
      apply setColumn_eq_self
      intro c hc hcn
      obtain ⟨c0, hc0, rfl⟩ := List.mem_map.mp hc
      by_cases h0 : c0.name = col2.name
      · rw [if_pos h0] at hcn ⊢
        exact absurd (h0 ▸ hcn) hname.symm
      · rw [if_neg h0] at hcn ⊢
        exact hpt c0 hc0 hcn

theorem process_plan_cons (q : String × (Cell → String))
    (rest : List (String × (Cell → String))) (df : DataFrame) :
    process_plan (q :: rest) df = process_plan rest (applyValidator df q.1 q.2) := rfl

theorem stable_process_plan (plan : List (String × (Cell → String))) (n : String)
    (f : Cell → String) :
    ∀ (df : DataFrame), (∀ q ∈ plan, pyUpper q.1 ≠ pyUpper n) →
      applyValidator df n f = df →
      applyValidator (process_plan plan df) n f = process_plan plan df := by
  induction plan with
  | nil => intro df _ hstable; exact hstable
  | cons q rest ih =>
    intro df hne hstable
    rw [process_plan_cons]
    apply ih
    · intro r hr
      exact hne r (List.mem_cons_of_mem q hr)
    · exact applyValidator_stable_of_ne df n q.1 f q.2
        (fun he => hne q (List.mem_cons_self q rest) he.symm) hstable

theorem process_plan_stable (plan : List (String × (Cell → String)))
    (hkeys : (plan.map (fun q => pyUpper q.1)).Pairwise (· ≠ ·))
    (hidem : ∀ q ∈ plan, ∀ c, q.2 (Cell.str (q.2 c)) = q.2 c) :
    ∀ q ∈ plan, ∀ (df : DataFrame),
      applyValidator (process_plan plan df) q.1 q.2 = process_plan plan df := by
  induction plan with
  | nil => intro q hq; exact absurd hq (List.not_mem_nil q)
  | cons p rest ih =>
    intro q hq df
    rw [process_plan_cons]
    rcases List.mem_cons.mp hq with rfl | hq2
    · apply stable_process_plan
      · intro r hr
        have := (List.pairwise_cons.mp hkeys).1 (pyUpper r.1) (List.mem_map_of_mem _ hr)
        exact fun he => this he.symm
      · exact applyValidator_applyValidator df q.1 q.2
          (hidem q (List.mem_cons_self q rest))
    · exact ih (List.pairwise_cons.mp hkeys).2
        (fun r hr => hidem r (List.mem_cons_of_mem p hr)) q hq2 _

theorem process_plan_eq_self (plan : List (String × (Cell → String))) :
    ∀ (df : DataFrame), (∀ q ∈ plan, applyValidator df q.1 q.2 = df) →
      process_plan plan df = df := by
  induction plan with
  | nil => intro df _; rfl
  | cons q rest ih =>
    intro df h
    rw [process_plan_cons, h q (List.mem_cons_self q rest)]
    exact ih df (fun r hr => h r (List.mem_cons_of_mem q hr))

theorem plan_idem_RP :
    ∀ q ∈ COLUMNS_TO_VALIDATE_RP, ∀ c, q.2 (Cell.str (q.2 c)) = q.2 c := by
  intro q hq
  simp only [COLUMNS_TO_VALIDATE_RP, List.mem_cons, List.not_mem_nil, or_false] at hq
  rcases hq with rfl | rfl
  · exact validate_state_idem
  · exact validate_postcode_idem

theorem plan_idem_MAXSOFT :
    ∀ q ∈ COLUMNS_TO_VALIDATE_MAXSOFT, ∀ c, q.2 (Cell.str (q.2 c)) = q.2 c := by
  intro q hq
  simp only [COLUMNS_TO_VALIDATE_MAXSOFT, List.mem_cons, List.not_mem_nil, or_false] at hq
  rcases hq with rfl | rfl | rfl | rfl | rfl | rfl
  · exact validate_state_idem
  · exact validate_postcode_idem
  · exact validate_phone_idem
  · exact validate_phone_idem
  · exact validate_phone_idem
  · exact validate_email_idem

/-- C7: applying either validation plan twice yields the same table as
applying it once, for every table: each validator maps its own output back to
itself, so the second pass changes no cell. -/
theorem C7_plans_idempotent (df : DataFrame) :
    process_rockend_property_iq (process_rockend_property_iq df) =
      process_rockend_property_iq df ∧
    process_maxsoft (process_maxsoft df) = process_maxsoft df := by
  constructor
  · apply process_plan_eq_self
    intro q hq
    exact process_plan_stable COLUMNS_TO_VALIDATE_RP (by decide) plan_idem_RP q hq df
  · apply process_plan_eq_self
    intro q hq
    exact process_plan_stable COLUMNS_TO_VALIDATE_MAXSOFT (by decide) plan_idem_MAXSOFT q hq df

/-! ## The broad plan as a per-column map -/

/-- The effect of one plan field on one column, when no other column competes
for the same case-insensitive name: a column whose key matches is replaced by
the validated cells, any other column is untouched. -/
def planStep (key : String) (f : Cell → String) (c : Column) : Column :=
  if normName c.name = key then
    { c with cells := c.cells.map (fun x => Cell.str (f x)) }
  else c

theorem planStep_name (key : String) (f : Cell → String) (c : Column) :
    (planStep key f c).name = c.name := by
  unfold planStep
  split <;> rfl

theorem map_key_planStep (df : DataFrame) (key : String) (f : Cell → String) :
    (df.map (planStep key f)).map (fun c => normName c.name) =
      df.map (fun c => normName c.name) := by
  rw [List.map_map]
  apply List.map_congr_left
  intro c _
  simp only [Function.comp_apply, planStep_name]

theorem applyValidator_cons_neg (c : Column) (rest : DataFrame) (n : String)
    (f : Cell → String) (hc : (normName c.name == pyUpper n) = false) :
    applyValidator (c :: rest) n f = c :: applyValidator rest n f := by
  cases hf : List.find? (fun c => normName c.name == pyUpper n) rest with
  | none =>
    rw [applyValidator_of_find?_none rest n f hf]
    apply applyValidator_of_find?_none
    rw [List.find?_cons_of_neg rest (by simp [hc])]
    exact hf
  | some col =>
    rw [applyValidator_of_find?_some rest n f col hf]
    have hcol : normName col.name = pyUpper n := by
      have := List.find?_some hf
      simpa using this
    have hf2 : List.find? (fun c => normName c.name == pyUpper n) (c :: rest) = some col := by
      rw [List.find?_cons_of_neg rest (by simp [hc])]
      exact hf
    rw [applyValidator_of_find?_some (c :: rest) n f col hf2]
    unfold setColumn
    rw [List.map_cons]
    have hcn : ¬ c.name = col.name := by
      intro he
      rw [Bool.eq_false_iff] at hc
      exact hc (by simp [he, hcol])
    rw [if_neg hcn]

theorem applyValidator_eq_map_of_nodup (df : DataFrame) (n : String) (f : Cell → String)
    (hnd : (df.map (fun c => normName c.name)).Nodup) :
    applyValidator df n f = df.map (planStep (pyUpper n) f) := by
  induction df with
  | nil =>
    rw [applyValidator_of_find?_none [] n f rfl]
    rfl
  | cons c rest ih =>
    rw [List.map_cons, List.nodup_cons] at hnd
    by_cases hc : normName c.name = pyUpper n
    · have hf : List.find? (fun c => normName c.name == pyUpper n) (c :: rest) = some c :=
        List.find?_cons_of_pos rest (by simp [hc])
      rw [applyValidator_of_find?_some (c :: rest) n f c hf]
      unfold setColumn
      rw [List.map_cons, if_pos rfl, List.map_cons]
      have hkeys : ∀ x ∈ rest, normName x.name ≠ normName c.name := by
        intro x hx he
        exact hnd.1 (he ▸ List.mem_map_of_mem (fun c => normName c.name) hx)
      congr 1
      · rw [planStep, if_pos hc]
      · rw [map_eq_self_of rest _ (by
          intro x hx
          have hxn : ¬ x.name = c.name := fun he => hkeys x hx (by rw [he])
          exact if_neg hxn)]
        rw [map_eq_self_of rest _ (by
          intro x hx
          rw [planStep, if_neg (fun he => hkeys x hx (by rw [he, hc]))])]
    · rw [applyValidator_cons_neg c rest n f (by simp [hc])]
      rw [List.map_cons]
      congr 1
      · rw [planStep, if_neg hc]
      · exact ih hnd.2

theorem process_plan_eq_map_of_nodup (plan : List (String × (Cell → String))) :
    ∀ (df : DataFrame), (df.map (fun c => normName c.name)).Nodup →
      process_plan plan df =
        df.map (fun c => plan.foldl (fun x q => planStep (pyUpper q.1) q.2 x) c) := by
  induction plan with
  | nil =>
    intro df _
    exact (map_eq_self_of df _ (fun c _ => rfl)).symm
  | cons q rest ih =>
    intro df hnd
    rw [process_plan_cons, applyValidator_eq_map_of_nodup df q.1 q.2 hnd]
    rw [ih (df.map (planStep (pyUpper q.1) q.2)) (by rw [map_key_planStep]; exact hnd)]
    rw [List.map_map]
    apply List.map_congr_left
    intro c _
    rfl

/-- The six case-insensitive column keys the broad (MAXSOFT) plan targets. -/
def upperBroadNames : List String :=
  ["STATE", "PCODE", "PHONE", "MOBILE", "FAX", "EMAIL"]

/-- The validator the spec assigns to each broad-plan column key. -/
def broadFieldValidator (key : String) : Cell → String :=
  if key = "STATE" then validate_state
  else if key = "PCODE" then validate_postcode
  else if key = "PHONE" ∨ key = "MOBILE" ∨ key = "FAX" then validate_phone
  else if key = "EMAIL" then validate_email
  else fun _ => ""

/-- Spec-side description of applying the broad plan, following the spec's
words: every column whose trimmed upper-cased name is one of the six plan
names is replaced by mapping its validator over every cell; every other
column is unchanged. -/
def broadPlanSpecApply (df : DataFrame) : DataFrame :=
  df.map (fun c =>
    if upperBroadNames.contains (normName c.name) = true then
      { c with cells := c.cells.map (fun x => Cell.str (broadFieldValidator (normName c.name) x)) }
    else c)

/-- C6 counterexample: in a table with two columns named in ways that both
match the plan field State case-insensitively, only the first is replaced; the
second keeps its raw cell, so the broad plan does not replace every matching
column as the claim states. -/
theorem C6_counterexample :
    process_maxsoft [⟨"state", [Cell.str "nsw"]⟩, ⟨"STATE", [Cell.str "vic"]⟩] =
      [⟨"state", [Cell.str "NSW"]⟩, ⟨"STATE", [Cell.str "vic"]⟩] ∧
    broadPlanSpecApply [⟨"state", [Cell.str "nsw"]⟩, ⟨"STATE", [Cell.str "vic"]⟩] =
      [⟨"state", [Cell.str "NSW"]⟩, ⟨"STATE", [Cell.str "VIC"]⟩] ∧
    process_maxsoft [⟨"state", [Cell.str "nsw"]⟩, ⟨"STATE", [Cell.str "vic"]⟩] ≠
      broadPlanSpecApply [⟨"state", [Cell.str "nsw"]⟩, ⟨"STATE", [Cell.str "vic"]⟩] := by
  refine ⟨by decide, by decide, by decide⟩

theorem broad_fold_eq_spec (c : Column) :
    COLUMNS_TO_VALIDATE_MAXSOFT.foldl (fun x q => planStep (pyUpper q.1) q.2 x) c =
      (if upperBroadNames.contains (normName c.name) = true then
        { c with cells := c.cells.map (fun x => Cell.str (broadFieldValidator (normName c.name) x)) }
      else c) := by
  obtain ⟨nm, cl⟩ := c
  have e1 : pyUpper "State" = "STATE" := by decide
  have e2 : pyUpper "PCode" = "PCODE" := by decide
  have e3 : pyUpper "Phone" = "PHONE" := by decide
  have e4 : pyUpper "Mobile" = "MOBILE" := by decide
  have e5 : pyUpper "Fax" = "FAX" := by decide
  have e6 : pyUpper "Email" = "EMAIL" := by decide
  simp only [COLUMNS_TO_VALIDATE_MAXSOFT, List.foldl_cons, List.foldl_nil,
    e1, e2, e3, e4, e5, e6]
  by_cases h1 : normName nm = "STATE"
  · simp [planStep, broadFieldValidator, upperBroadNames, h1]
  · by_cases h2 : normName nm = "PCODE"
    · simp [planStep, broadFieldValidator, upperBroadNames, h1, h2]
    · by_cases h3 : normName nm = "PHONE"
      · simp [planStep, broadFieldValidator, upperBroadNames, h1, h2, h3]
      · by_cases h4 : normName nm = "MOBILE"
        · simp [planStep, broadFieldValidator, upperBroadNames, h1, h2, h3, h4]
        · by_cases h5 : normName nm = "FAX"
          · simp [planStep, broadFieldValidator, upperBroadNames, h1, h2, h3, h4, h5]
          · by_cases h6 : normName nm = "EMAIL"
            · simp [planStep, broadFieldValidator, upperBroadNames, h1, h2, h3, h4, h5, h6]
            · simp [planStep, broadFieldValidator, upperBroadNames, h1, h2, h3, h4, h5, h6]

/-- C6 (amended): for every table in which no two column names coincide after
trimming and upper-casing, applying the broad (MAXSOFT) plan replaces exactly
those columns whose key is one of State, PCode, Phone, Mobile, Fax, Email by
the cell-wise validated column, leaves every other column unchanged, and
preserves the number of columns and the row count and row order of every
column. -/
theorem C6_process_maxsoft_frame (df : DataFrame)
    (hnd : (df.map (fun c => normName c.name)).Nodup) :
    process_maxsoft df = broadPlanSpecApply df ∧
      (process_maxsoft df).map (fun c => c.cells.length) =
        df.map (fun c => c.cells.length) := by
  have hmain : process_maxsoft df = broadPlanSpecApply df := by
    rw [process_maxsoft, process_plan_eq_map_of_nodup COLUMNS_TO_VALIDATE_MAXSOFT df hnd]
    apply List.map_congr_left
    intro c _
    exact broad_fold_eq_spec c
  refine ⟨hmain, ?_⟩
  rw [hmain]
  unfold broadPlanSpecApply
  rw [List.map_map]
  apply List.map_congr_left
  intro c _
  simp only [Function.comp_apply]
  split <;> simp

/-- C6 witness: the amended statement applied to a concrete MAXSOFT-style
table whose column keys are pairwise distinct. -/
theorem C6_witness :
    (([⟨"State ", [Cell.str " nsw", Cell.nonstr 0]⟩, ⟨"pcode", [Cell.str "2000"]⟩,
        ⟨"Other", [Cell.str "x"]⟩] : DataFrame).map
          (fun c => normName c.name)).Nodup ∧
      process_maxsoft [⟨"State ", [Cell.str " nsw", Cell.nonstr 0]⟩,
          ⟨"pcode", [Cell.str "2000"]⟩, ⟨"Other", [Cell.str "x"]⟩] =
        broadPlanSpecApply [⟨"State ", [Cell.str " nsw", Cell.nonstr 0]⟩,
          ⟨"pcode", [Cell.str "2000"]⟩, ⟨"Other", [Cell.str "x"]⟩] :=
  ⟨by decide,
    (C6_process_maxsoft_frame [⟨"State ", [Cell.str " nsw", Cell.nonstr 0]⟩,
      ⟨"pcode", [Cell.str "2000"]⟩, ⟨"Other", [Cell.str "x"]⟩] (by decide)).1⟩

/-! ## Dispatch, error conditions, and output paths -/

/-- C1: for a table whose marker cell is a string, dispatch on the trimmed
upper-cased marker applies the narrow plan for ROCKEND and PROPERTYIQ, the
broad plan for MAXSOFT, and passes the table through with no transformation
for every other marker (STRATASPHERE, STRATA PLUS, and unrecognized values
alike). -/
theorem C1_dispatch (df : DataFrame) (fname a : String) (cs : List Cell) (v : String)
    (hcol : get_column_case_insensitive df "SOFTVEND" = some (a, cs))
    (hhead : cs.head? = some (.str v)) :
    ((pyUpper (pyStrip v) = "ROCKEND" ∨ pyUpper (pyStrip v) = "PROPERTYIQ") →
      Except.map resultDf (preprocess_df df fname) =
        .ok (process_rockend_property_iq df)) ∧
    (pyUpper (pyStrip v) = "MAXSOFT" →
      Except.map resultDf (preprocess_df df fname) = .ok (process_maxsoft df)) ∧
    (pyUpper (pyStrip v) ≠ "ROCKEND" → pyUpper (pyStrip v) ≠ "PROPERTYIQ" →
      pyUpper (pyStrip v) ≠ "MAXSOFT" →
      Except.map resultDf (preprocess_df df fname) = .ok df) := by
  simp only [preprocess_df, hcol, hhead]
  refine ⟨?_, ?_, ?_⟩
  · intro h
    rw [if_pos h]
    rfl
  · intro h
    have hr : ¬ (pyUpper (pyStrip v) = "ROCKEND" ∨ pyUpper (pyStrip v) = "PROPERTYIQ") := by
      rw [h]; simp
    rw [if_neg hr, if_pos h]
    rfl
  · intro h1 h2 h3
    rw [if_neg (by tauto), if_neg h3]
    by_cases hs : pyUpper (pyStrip v) = "STRATASPHERE" ∨ pyUpper (pyStrip v) = "STRATA PLUS"
    · rw [if_pos hs]
      rfl
    · rw [if_neg hs]
      rfl

/-- C1 witness: the dispatch statement applied to a concrete MAXSOFT table. -/
theorem C1_witness :
    Except.map resultDf (preprocess_df
        [⟨"SOFTVEND", [Cell.str " Maxsoft "]⟩, ⟨"State", [Cell.str "nsw"]⟩] "f.csv") =
      .ok (process_maxsoft
        [⟨"SOFTVEND", [Cell.str " Maxsoft "]⟩, ⟨"State", [Cell.str "nsw"]⟩]) :=
  (C1_dispatch [⟨"SOFTVEND", [Cell.str " Maxsoft "]⟩, ⟨"State", [Cell.str "nsw"]⟩]
    "f.csv" "SOFTVEND" [Cell.str " Maxsoft "] " Maxsoft " rfl rfl).2.1 (by decide)

/-- C8 counterexample: a parsed table that does contain the marker column
SOFTVEND (so the marker is not missing and the file parsed) on which the core
still signals an error, because the column has no rows. -/
theorem C8_counterexample :
    get_column_case_insensitive [⟨"SOFTVEND", ([] : List Cell)⟩] "SOFTVEND" =
      some ("SOFTVEND", []) ∧
    isError (preprocess_df [⟨"SOFTVEND", ([] : List Cell)⟩] "f.csv") = true :=
  ⟨rfl, rfl⟩

/-- C8 (amended): on a parsed table, the core signals an error exactly when
the marker column SOFTVEND is missing, or it is present but has no rows, or
its first value is not a string; a plan field absent from the table is
skipped with the table unchanged, and cell-level validation failures never
produce an error. -/
theorem C8_error_conditions (df : DataFrame) (fname : String) :
    (isError (preprocess_df df fname) = true ↔
      (get_column_case_insensitive df "SOFTVEND" = none ∨
        ∃ a cs, get_column_case_insensitive df "SOFTVEND" = some (a, cs) ∧
          (cs.head? = none ∨ ∃ t, cs.head? = some (.nonstr t)))) ∧
    (∀ (n : String) (f : Cell → String),
      get_column_case_insensitive df n = none → applyValidator df n f = df) := by
  constructor
  · cases hcol : get_column_case_insensitive df "SOFTVEND" with
    | none =>
      simp only [preprocess_df, hcol]
      simp [isError]
    | some pr =>
      obtain ⟨a, cs⟩ := pr
      cases hhead : cs.head? with
      | none =>
        simp only [preprocess_df, hcol, hhead]
        simp only [isError, true_iff]
        exact Or.inr ⟨a, cs, rfl, Or.inl hhead⟩
      | some cell =>
        cases cell with
        | nonstr t =>
          simp only [preprocess_df, hcol, hhead]
          simp only [isError, true_iff]
          exact Or.inr ⟨a, cs, rfl, Or.inr ⟨t, hhead⟩⟩
        | str v =>
          simp only [preprocess_df, hcol, hhead]
          constructor
          · intro hfalse
            exfalso
            revert hfalse
            split
            · simp [isError]
            · split
              · simp [isError]
              · split
                · simp [isError]
                · simp [isError]
          · rintro (h | ⟨a2, cs2, h2, hbad⟩)
            · exact absurd h (by simp)
            · rw [Option.some.injEq, Prod.mk.injEq] at h2
              rcases hbad with hb | ⟨t, hb⟩
              · rw [← h2.2, hhead] at hb
                exact absurd hb (by simp)
              · rw [← h2.2, hhead] at hb
                exact absurd hb (by simp)
  · intro n f h
    unfold applyValidator
    rw [h]

/-- C8 witness: the amended statement applied to a table whose marker cell is
a non-string (NaN) and to a missing plan field. -/
theorem C8_witness :
    isError (preprocess_df [⟨"SOFTVEND", [Cell.nonstr 7]⟩] "x.csv") = true ∧
    applyValidator [⟨"SOFTVEND", [Cell.nonstr 7]⟩] "Phone" validate_phone =
      [⟨"SOFTVEND", [Cell.nonstr 7]⟩] :=
  ⟨(C8_error_conditions [⟨"SOFTVEND", [Cell.nonstr 7]⟩] "x.csv").1.mpr
      (Or.inr ⟨"SOFTVEND", [Cell.nonstr 7], rfl, Or.inr ⟨7, rfl⟩⟩),
    (C8_error_conditions [⟨"SOFTVEND", [Cell.nonstr 7]⟩] "x.csv").2 "Phone"
      validate_phone rfl⟩

/-- C9: even when the marker column SOFTVEND is present, marker extraction is
partial: a table with no rows, or whose first marker cell is not a string,
makes the core raise before any plan is selected. -/
theorem C9_marker_partial (df : DataFrame) (fname a : String) (cs : List Cell)
    (hcol : get_column_case_insensitive df "SOFTVEND" = some (a, cs))
    (hbad : cs.head? = none ∨ ∃ t, cs.head? = some (.nonstr t)) :
    isError (preprocess_df df fname) = true := by
  simp only [preprocess_df, hcol]
  rcases hbad with h | ⟨t, h⟩ <;> rw [h] <;> rfl

/-- C9 witness: the partiality statement applied to a table that has the
marker column but zero rows. -/
theorem C9_witness :
    isError (preprocess_df [⟨"SOFTVEND", ([] : List Cell)⟩] "g.csv") = true :=
  C9_marker_partial [⟨"SOFTVEND", ([] : List Cell)⟩] "g.csv" "SOFTVEND" []
    rfl (Or.inl rfl)

/-- C10: when the marker is STRATASPHERE or STRATA PLUS the core returns the
in-memory table itself and writes no file; for every other string marker it
returns a written file at the processed path. -/
theorem C10_output_paths (df : DataFrame) (fname a : String) (cs : List Cell) (v : String)
    (hcol : get_column_case_insensitive df "SOFTVEND" = some (a, cs))
    (hhead : cs.head? = some (.str v)) :
    ((pyUpper (pyStrip v) = "STRATASPHERE" ∨ pyUpper (pyStrip v) = "STRATA PLUS") →
      preprocess_df df fname = .ok (.passthrough df)) ∧
    (pyUpper (pyStrip v) ≠ "STRATASPHERE" → pyUpper (pyStrip v) ≠ "STRATA PLUS" →
      ∃ d, preprocess_df df fname = .ok (.written (processedPath fname) d)) := by
  simp only [preprocess_df, hcol, hhead]
  constructor
  · intro h
    have hr : ¬ (pyUpper (pyStrip v) = "ROCKEND" ∨ pyUpper (pyStrip v) = "PROPERTYIQ") := by
      rcases h with h | h <;> rw [h] <;> simp
    have hm : ¬ pyUpper (pyStrip v) = "MAXSOFT" := by
      rcases h with h | h <;> rw [h] <;> simp
    rw [if_neg hr, if_neg hm, if_pos h]
  · intro h1 h2
    by_cases hr : pyUpper (pyStrip v) = "ROCKEND" ∨ pyUpper (pyStrip v) = "PROPERTYIQ"
    · exact ⟨process_rockend_property_iq df, by rw [if_pos hr]⟩
    · by_cases hm : pyUpper (pyStrip v) = "MAXSOFT"
      · exact ⟨process_maxsoft df, by rw [if_neg hr, if_pos hm]⟩
      · exact ⟨df, by rw [if_neg hr, if_neg hm, if_neg (by tauto)]⟩

/-- C10 witness: the output-path statement applied to a concrete passthrough
vendor and its conclusion for a written vendor checked as well. -/
theorem C10_witness :
    preprocess_df [⟨"SOFTVEND", [Cell.str "Stratasphere"]⟩] "f.csv" =
      .ok (.passthrough [⟨"SOFTVEND", [Cell.str "Stratasphere"]⟩]) :=
  (C10_output_paths [⟨"SOFTVEND", [Cell.str "Stratasphere"]⟩] "f.csv" "SOFTVEND"
    [Cell.str "Stratasphere"] "Stratasphere" rfl rfl).1 (by decide)

end DxPre
